import Mathlib

/-!
Shallow embedding of the `gevdist_rust` extreme-value distribution library.

The library (src/dist) implements four distributions over IEEE `f64`:
Gumbel, Frechet, Weibull (reversed) and the Generalized Extreme Value
distribution, each with closed-form `cdf`, `pdf`, `quantile` and an
inverse-transform `random`.  Arithmetic is modelled over the real numbers,
`libm::log` and `libm::exp` by `Real.log` / `Real.exp`, and `libm::pow` by
`Real.rpow` (they agree on the positive bases arising in the domains of the
formulas).  Boundary behaviour of `quantile` at probabilities 0 and 1, where
the floating-point code produces infinities, is modelled by an extended-real
(`EReal`) evaluation of the same formulas, with `elog` and `epow` extending
`log` and `pow` to the interval [0, +infinity] following the IEEE-754
conventions (log 0 = -inf, log inf = inf, pow(inf, y) and pow(0, y) by sign
of y).  The `domain!` macro of `distutils.rs` expands to `debug_assert!`;
it is modelled by `domainCheck` with an explicit debug flag, a violated
check in a debug build halting the program (modelled as `none`).
-/

open Real

open scoped Classical

noncomputable section

/-- Seed selector from `distutils.rs`: either `Empty` (entropy-derived seed)
or `Seed` with a caller-supplied 64-bit value (modelled as a natural). -/
inductive RandomSeed where
  | Empty : RandomSeed
  | Seed : Nat → RandomSeed

/-- Translation of `RandomSeed::get_seed`: retrieve the seed if one was given. -/
def RandomSeed.get_seed : RandomSeed → Option Nat
  | RandomSeed.Empty => none
  | RandomSeed.Seed v => some v

/-- Translation of `impl Default for RandomSeed`: the default selector is `Empty`. -/
def RandomSeed.default : RandomSeed := RandomSeed.Empty

/-- Model of the `domain!` macro of `distutils.rs`, which expands to
`debug_assert!`: the requirement is checked only when `debug` is true, and a
violated check halts the program (modelled as `none`); in a release build the
check is compiled out and the value is produced unchecked. -/
def domainCheck {α : Type} (debug : Bool) (req : Prop) (val : α) : Option α :=
  if debug then (if req then some val else none) else some val

/-- The Gumbel distribution struct of `gumbel.rs`: location and scale. -/
structure Gumbel where
  loc : ℝ
  scale : ℝ

/-- Translation of `Gumbel::new` as compiled in a release build: the
`domain!(scale > 0.0)` assertion is compiled out and the fields are stored
as given. -/
def Gumbel.new (loc scale : ℝ) : Gumbel := ⟨loc, scale⟩

/-- Translation of `Gumbel::new` with the debug flag explicit: the
`domain!(scale > 0.0)` check runs only in a debug build. -/
def Gumbel.newChecked (debug : Bool) (loc scale : ℝ) : Option Gumbel :=
  domainCheck debug (scale > 0) (Gumbel.new loc scale)

/-- Translation of `Gumbel::cdf`: `exp(-exp(-y))` with `y = (x - loc) / scale`. -/
def Gumbel.cdf (d : Gumbel) (x : ℝ) : ℝ :=
  let y := (x - d.loc) / d.scale
  exp (-exp (-y))

/-- Translation of `Gumbel::pdf`:
`(1/scale) * exp(-y) * exp(-exp(-y))` with `y = (x - loc) / scale`. -/
def Gumbel.pdf (d : Gumbel) (x : ℝ) : ℝ :=
  let y := (x - d.loc) / d.scale
  let constant := 1 / d.scale
  constant * exp (-y) * exp (-exp (-y))

/-- Translation of `Gumbel::quantile`: `loc - scale * log(-log x)`. -/
def Gumbel.quantile (d : Gumbel) (x : ℝ) : ℝ :=
  d.loc - d.scale * log (-log x)

/-- Translation of `Gumbel::quantile` with its `domain!(x >= 0.0 && x <= 1.0)`
check and the debug flag explicit. -/
def Gumbel.quantileChecked (debug : Bool) (d : Gumbel) (x : ℝ) : Option ℝ :=
  domainCheck debug (x ≥ 0 ∧ x ≤ 1) (d.quantile x)

/-- Translation of `Gumbel::random`.  Modelled from the spec: the uniform
draw comes from the external `rand_chacha` crate (not part of src/), drawing
from a ChaCha8 generator that is a deterministic function of the 64-bit seed
in the `Seed` case and from system entropy in the `Empty` case; the model
takes the seed-to-uniform map and the ambient entropy draw as parameters. -/
def Gumbel.randomG (d : Gumbel) (uniformOfSeed : Nat → ℝ) (entropyDraw : ℝ) :
    RandomSeed → ℝ
  | RandomSeed.Empty => d.quantile entropyDraw
  | RandomSeed.Seed s => d.quantile (uniformOfSeed s)

/-- The Frechet distribution struct of `frechet.rs`: location, scale, shape. -/
structure Frechet where
  loc : ℝ
  scale : ℝ
  shape : ℝ

/-- Translation of `Frechet::new` as compiled in a release build: the
`domain!(scale > 0.0 && shape > 0.0)` assertion is compiled out. -/
def Frechet.new (loc scale shape : ℝ) : Frechet := ⟨loc, scale, shape⟩

/-- Translation of `Frechet::new` with the debug flag explicit. -/
def Frechet.newChecked (debug : Bool) (loc scale shape : ℝ) : Option Frechet :=
  domainCheck debug (scale > 0 ∧ shape > 0) (Frechet.new loc scale shape)

/-- Translation of `Frechet::cdf`:
`exp(-pow(y, -shape))` with `y = (x - loc) / scale`. -/
def Frechet.cdf (d : Frechet) (x : ℝ) : ℝ :=
  let y := (x - d.loc) / d.scale
  exp (-(y ^ (-d.shape)))

/-- Translation of `Frechet::cdf` with its `domain!(x > self.loc)` check. -/
def Frechet.cdfChecked (debug : Bool) (d : Frechet) (x : ℝ) : Option ℝ :=
  domainCheck debug (x > d.loc) (d.cdf x)

/-- Translation of `Frechet::pdf`:
`(shape/scale) * pow(y, -1 - shape) * exp(-pow(y, -shape))`. -/
def Frechet.pdf (d : Frechet) (x : ℝ) : ℝ :=
  let y := (x - d.loc) / d.scale
  let pow_const := d.shape / d.scale
  pow_const * y ^ (-1 - d.shape) * exp (-(y ^ (-d.shape)))

/-- Translation of `Frechet::pdf` with its `domain!(x > self.loc)` check. -/
def Frechet.pdfChecked (debug : Bool) (d : Frechet) (x : ℝ) : Option ℝ :=
  domainCheck debug (x > d.loc) (d.pdf x)

/-- Translation of `Frechet::quantile`:
`loc + scale * pow(-log x, -1/shape)`. -/
def Frechet.quantile (d : Frechet) (x : ℝ) : ℝ :=
  d.loc + d.scale * (-log x) ^ ((-1 : ℝ) / d.shape)

/-- Translation of `Frechet::quantile` with its domain check. -/
def Frechet.quantileChecked (debug : Bool) (d : Frechet) (x : ℝ) : Option ℝ :=
  domainCheck debug (x ≥ 0 ∧ x ≤ 1) (d.quantile x)

/-- Translation of `Frechet::random`; see `Gumbel.randomG` for the modelling
of the external ChaCha8 generator. -/
def Frechet.randomG (d : Frechet) (uniformOfSeed : Nat → ℝ) (entropyDraw : ℝ) :
    RandomSeed → ℝ
  | RandomSeed.Empty => d.quantile entropyDraw
  | RandomSeed.Seed s => d.quantile (uniformOfSeed s)

/-- The (reversed) Weibull distribution struct of `weibull.rs`. -/
structure Weibull where
  loc : ℝ
  scale : ℝ
  shape : ℝ

/-- Translation of `Weibull::new` as compiled in a release build: the
`domain!(scale > 0.0 && shape > 0.0)` assertion is compiled out. -/
def Weibull.new (loc scale shape : ℝ) : Weibull := ⟨loc, scale, shape⟩

/-- Translation of `Weibull::new` with the debug flag explicit. -/
def Weibull.newChecked (debug : Bool) (loc scale shape : ℝ) : Option Weibull :=
  domainCheck debug (scale > 0 ∧ shape > 0) (Weibull.new loc scale shape)

/-- Translation of `Weibull::cdf`:
`exp(-pow(-y, shape))` with `y = (x - loc) / scale`. -/
def Weibull.cdf (d : Weibull) (x : ℝ) : ℝ :=
  let y := (x - d.loc) / d.scale
  exp (-((-y) ^ d.shape))

/-- Translation of `Weibull::cdf` with its
`domain!(x < self.loc && scale > 0.0 && shape > 0.0)` check. -/
def Weibull.cdfChecked (debug : Bool) (d : Weibull) (x : ℝ) : Option ℝ :=
  domainCheck debug (x < d.loc ∧ d.scale > 0 ∧ d.shape > 0) (d.cdf x)

/-- Translation of `Weibull::pdf`:
`(shape/scale) * pow(-y, shape - 1) * exp(-pow(-y, shape))`. -/
def Weibull.pdf (d : Weibull) (x : ℝ) : ℝ :=
  let y := (x - d.loc) / d.scale
  let pow_const := d.shape / d.scale
  pow_const * (-y) ^ (d.shape - 1) * exp (-((-y) ^ d.shape))

/-- Translation of `Weibull::pdf` with its domain check. -/
def Weibull.pdfChecked (debug : Bool) (d : Weibull) (x : ℝ) : Option ℝ :=
  domainCheck debug (x < d.loc ∧ d.scale > 0 ∧ d.shape > 0) (d.pdf x)

/-- Translation of `Weibull::quantile`:
`loc - scale * pow(-log x, 1/shape)`. -/
def Weibull.quantile (d : Weibull) (x : ℝ) : ℝ :=
  d.loc - d.scale * (-log x) ^ ((1 : ℝ) / d.shape)

/-- Translation of `Weibull::quantile` with its domain check. -/
def Weibull.quantileChecked (debug : Bool) (d : Weibull) (x : ℝ) : Option ℝ :=
  domainCheck debug (x ≥ 0 ∧ x ≤ 1) (d.quantile x)

/-- Translation of `Weibull::random`; see `Gumbel.randomG` for the modelling
of the external ChaCha8 generator. -/
def Weibull.randomG (d : Weibull) (uniformOfSeed : Nat → ℝ) (entropyDraw : ℝ) :
    RandomSeed → ℝ
  | RandomSeed.Empty => d.quantile entropyDraw
  | RandomSeed.Seed s => d.quantile (uniformOfSeed s)

/-- The GEV distribution struct of `gev.rs`: location, scale and a shape
parameter that may be any real, including zero. -/
structure GEV where
  loc : ℝ
  scale : ℝ
  shape : ℝ

/-- Translation of `GEV::new` as compiled in a release build: the
`domain!(scale > 0.0)` assertion is compiled out. -/
def GEV.new (loc scale shape : ℝ) : GEV := ⟨loc, scale, shape⟩

/-- Translation of `GEV::new` with the debug flag explicit. -/
def GEV.newChecked (debug : Bool) (loc scale shape : ℝ) : Option GEV :=
  domainCheck debug (scale > 0) (GEV.new loc scale shape)

/-- Translation of `GEV::t_func`, branching on exact equality of the shape
with zero: `exp(-y)` when `shape == 0`, else `pow(1 + shape * y, -1/shape)`. -/
def GEV.t_func (d : GEV) (x : ℝ) : ℝ :=
  let y := (x - d.loc) / d.scale
  if d.shape = 0 then exp (-y)
  else (1 + d.shape * y) ^ ((-1 : ℝ) / d.shape)

/-- Translation of `GEV::cdf`: `exp(-t_func(x))`. -/
def GEV.cdf (d : GEV) (x : ℝ) : ℝ :=
  exp (-(d.t_func x))

/-- Translation of `GEV::cdf` with its
`domain!(1 + shape*((x - loc)/scale) > 0.0 && scale > 0.0)` check. -/
def GEV.cdfChecked (debug : Bool) (d : GEV) (x : ℝ) : Option ℝ :=
  domainCheck debug
    (1 + d.shape * ((x - d.loc) / d.scale) > 0 ∧ d.scale > 0) (d.cdf x)

/-- Translation of `GEV::pdf`:
`(1/scale) * pow(t_func(x), shape + 1) * exp(-t_func(x))`. -/
def GEV.pdf (d : GEV) (x : ℝ) : ℝ :=
  let mult_const := 1 / d.scale
  let t_val := d.t_func x
  mult_const * t_val ^ (d.shape + 1) * exp (-t_val)

/-- Translation of `GEV::pdf` with its domain check. -/
def GEV.pdfChecked (debug : Bool) (d : GEV) (x : ℝ) : Option ℝ :=
  domainCheck debug
    (1 + d.shape * ((x - d.loc) / d.scale) > 0 ∧ d.scale > 0) (d.pdf x)

/-- Translation of `GEV::quantile`, branching on exact equality of the shape
with zero: `-scale * log(-log x) + loc` when `shape == 0`, else
`(scale/shape) * pow(-log x, -shape) - scale/shape + loc`. -/
def GEV.quantile (d : GEV) (x : ℝ) : ℝ :=
  if d.shape = 0 then -d.scale * log (-log x) + d.loc
  else
    let mult_const := d.scale / d.shape
    mult_const * (-log x) ^ (-d.shape) - mult_const + d.loc

/-- Translation of `GEV::quantile` with its domain check. -/
def GEV.quantileChecked (debug : Bool) (d : GEV) (x : ℝ) : Option ℝ :=
  domainCheck debug (x ≥ 0 ∧ x ≤ 1) (d.quantile x)

/-- Translation of `GEV::random`; see `Gumbel.randomG` for the modelling
of the external ChaCha8 generator. -/
def GEV.randomG (d : GEV) (uniformOfSeed : Nat → ℝ) (entropyDraw : ℝ) :
    RandomSeed → ℝ
  | RandomSeed.Empty => d.quantile entropyDraw
  | RandomSeed.Seed s => d.quantile (uniformOfSeed s)

/-- Spec-side statement of the GEV quantile formula, following the words of
the spec: `loc - scale * log(-log p)` when the shape is zero, else
`loc + (scale/shape) * ((-log p)^(-shape) - 1)`, the branch chosen by exact
equality of the shape with zero. -/
def gevQuantileSpec (loc scale shape p : ℝ) : ℝ :=
  if shape = 0 then loc - scale * log (-log p)
  else loc + scale / shape * ((-log p) ^ (-shape) - 1)

/-- Extension of the real logarithm to extended-real inputs in [0, +infinity],
following the IEEE-754 semantics of `libm::log` at the boundary: the log of
zero is minus infinity and the log of plus infinity is plus infinity; finite
positive inputs follow `Real.log`.  Inputs below zero (where the
floating-point log is NaN) are outside the modelled domain. -/
def elog (x : EReal) : EReal :=
  if x = ⊤ then ⊤
  else if x.toReal ≤ 0 then ⊥
  else ↑(Real.log x.toReal)

/-- An exponent that is an odd integer: the case that IEEE-754 `pow`
singles out when the base is a signed zero (the result then carries the
sign of the base). -/
def isOddInt (y : ℝ) : Prop := ∃ k : ℤ, Odd k ∧ (k : ℝ) = y

/-- Value of a floating-point intermediate in the quantile formulas: a
finite real (with the positive zero as `fin 0`), the negative zero (a
distinct floating-point datum that `libm::pow` treats specially), or an
infinity.  NaN does not arise on the modelled domain and has no
representative. -/
inductive FVal where
  | bot : FVal
  | negZero : FVal
  | fin : ℝ → FVal
  | top : FVal

/-- IEEE-754 negation of a float value: negation flips the sign bit, so
negating the positive zero yields the negative zero and conversely. -/
def FVal.neg : FVal → FVal
  | FVal.bot => FVal.top
  | FVal.negZero => FVal.fin 0
  | FVal.fin r => if r = 0 then FVal.negZero else FVal.fin (-r)
  | FVal.top => FVal.bot

/-- Model of `libm::log` on float values in [0, +infinity]: the log of
either zero is minus infinity, the log of plus infinity is plus infinity,
and positive finite inputs follow `Real.log`.  Negative inputs (NaN in
IEEE-754) are outside the modelled domain and collapse to minus infinity
as junk. -/
def FVal.log : FVal → FVal
  | FVal.bot => FVal.bot
  | FVal.negZero => FVal.bot
  | FVal.fin r => if r ≤ 0 then FVal.bot else FVal.fin (Real.log r)
  | FVal.top => FVal.top

/-- Model of `libm::pow` on the float bases reachable from the quantile
formulas (the negative zero, nonnegative finite reals, plus infinity),
following C99 Annex F: pow of a signed zero to a negative odd integer is
an infinity with the sign of the base, to any other negative exponent plus
infinity, to zero 1, and to a positive exponent a zero with the sign rule
(the sign of the base for odd integers); pow of plus infinity is 0, 1 or
plus infinity by the sign of the exponent; positive finite bases follow
`Real.rpow`.  A minus-infinity base is junk (not reachable here). -/
def FVal.pow : FVal → ℝ → FVal
  | FVal.bot, _ => FVal.bot
  | FVal.negZero, e =>
      if e = 0 then FVal.fin 1
      else if e < 0 then (if isOddInt e then FVal.bot else FVal.top)
      else (if isOddInt e then FVal.negZero else FVal.fin 0)
  | FVal.fin r, e =>
      if r = 0 then
        (if e = 0 then FVal.fin 1 else if e < 0 then FVal.top else FVal.fin 0)
      else FVal.fin (r ^ e)
  | FVal.top, e =>
      if e = 0 then FVal.fin 1 else if e < 0 then FVal.fin 0 else FVal.top

/-- Reading a float value back as an extended real: the negative zero is
numerically equal to zero, so both zeros read as 0 (only `libm::pow`,
which receives the `FVal` itself, distinguishes them). -/
def FVal.toEReal : FVal → EReal
  | FVal.bot => ⊥
  | FVal.negZero => 0
  | FVal.fin r => ↑r
  | FVal.top => ⊤

lemma elog_top : elog ⊤ = ⊤ := if_pos rfl

lemma elog_coe_nonpos {x : ℝ} (h : x ≤ 0) : elog ↑x = ⊥ := by
  rw [elog, if_neg (EReal.coe_ne_top x)]
  rw [EReal.toReal_coe]
  exact if_pos h

lemma elog_coe_pos {x : ℝ} (h : 0 < x) : elog ↑x = ↑(Real.log x) := by
  rw [elog, if_neg (EReal.coe_ne_top x)]
  rw [EReal.toReal_coe]
  exact if_neg (not_le.2 h)

lemma elog_zero : elog (0 : EReal) = ⊥ := by
  rw [← EReal.coe_zero]
  exact elog_coe_nonpos le_rfl

lemma elog_one : elog ((1 : ℝ) : EReal) = 0 := by
  rw [elog_coe_pos one_pos, Real.log_one, EReal.coe_zero]

/-- The float trace of `-log(0.0)`: log gives minus infinity, negation
gives plus infinity. -/
lemma fval_negLog_zero : (FVal.fin (0 : ℝ)).log.neg = FVal.top := by
  simp only [FVal.log]
  rw [if_pos le_rfl]
  simp only [FVal.neg]

/-- The float trace of `-log(1.0)`: log gives the positive zero, negation
gives the negative zero. -/
lemma fval_negLog_one : (FVal.fin (1 : ℝ)).log.neg = FVal.negZero := by
  simp only [FVal.log]
  rw [if_neg (by norm_num), Real.log_one]
  simp [FVal.neg]

/-- The float trace of `-log(p)` for p in the open unit interval: a
positive finite real. -/
lemma fval_negLog_interior {p : ℝ} (h0 : 0 < p) (h1 : p < 1) :
    (FVal.fin p).log.neg = FVal.fin (-Real.log p) := by
  have hlog : Real.log p < 0 := log_neg h0 h1
  simp only [FVal.log]
  rw [if_neg (not_le.2 h0)]
  simp only [FVal.neg]
  rw [if_neg hlog.ne]

lemma fval_pow_top_of_neg {e : ℝ} (h : e < 0) : FVal.top.pow e = FVal.fin 0
    := by
  simp only [FVal.pow]
  rw [if_neg h.ne, if_pos h]

lemma fval_pow_top_of_pos {e : ℝ} (h : 0 < e) : FVal.top.pow e = FVal.top
    := by
  simp only [FVal.pow]
  rw [if_neg h.ne', if_neg (not_lt.2 h.le)]

lemma fval_pow_negZero_of_neg_odd {e : ℝ} (h : e < 0) (ho : isOddInt e) :
    FVal.negZero.pow e = FVal.bot := by
  simp only [FVal.pow]
  rw [if_neg h.ne, if_pos h, if_pos ho]

lemma fval_pow_negZero_of_neg_not_odd {e : ℝ} (h : e < 0)
    (ho : ¬ isOddInt e) : FVal.negZero.pow e = FVal.top := by
  simp only [FVal.pow]
  rw [if_neg h.ne, if_pos h, if_neg ho]

/-- A positive power of the negative zero is a zero of either sign, hence
numerically zero. -/
lemma fval_toEReal_pow_negZero_of_pos {e : ℝ} (h : 0 < e) :
    (FVal.negZero.pow e).toEReal = 0 := by
  simp only [FVal.pow]
  rw [if_neg h.ne', if_neg (not_lt.2 h.le)]
  by_cases ho : isOddInt e
  · rw [if_pos ho]
    rfl
  · rw [if_neg ho]
    simp [FVal.toEReal]

lemma fval_pow_fin_pos {r : ℝ} (h : 0 < r) (e : ℝ) :
    (FVal.fin r).pow e = FVal.fin (r ^ e) := by
  simp only [FVal.pow]
  rw [if_neg h.ne']

/-- Extended-real evaluation of `Gumbel::quantile`: the source formula
`loc - scale * log(-log x)` read over the extended reals, capturing the
floating-point boundary behaviour at probabilities 0 and 1. -/
def Gumbel.quantileE (d : Gumbel) (p : ℝ) : EReal :=
  (d.loc : EReal) - (d.scale : EReal) * elog (-elog ↑p)

/-- Extended evaluation of `Frechet::quantile`:
`loc + scale * pow(-log x, -1/shape)` with the floating-point
intermediates, including the negative zero produced by `-log(1.0)`,
modelled by `FVal`. -/
def Frechet.quantileE (d : Frechet) (p : ℝ) : EReal :=
  (d.loc : EReal) + (d.scale : EReal)
    * ((FVal.fin p).log.neg.pow ((-1 : ℝ) / d.shape)).toEReal

/-- Extended evaluation of `Weibull::quantile`:
`loc - scale * pow(-log x, 1/shape)` with the floating-point intermediates
modelled by `FVal`. -/
def Weibull.quantileE (d : Weibull) (p : ℝ) : EReal :=
  (d.loc : EReal) - (d.scale : EReal)
    * ((FVal.fin p).log.neg.pow ((1 : ℝ) / d.shape)).toEReal

/-- Extended evaluation of `GEV::quantile`, with the same branch on exact
equality of the shape with zero as the source and the floating-point
intermediates modelled by `FVal`. -/
def GEV.quantileE (d : GEV) (p : ℝ) : EReal :=
  if d.shape = 0 then
    -(d.scale : EReal) * ((FVal.fin p).log.neg.log).toEReal + (d.loc : EReal)
  else
    ((d.scale / d.shape : ℝ) : EReal)
        * ((FVal.fin p).log.neg.pow (-d.shape)).toEReal
      - ((d.scale / d.shape : ℝ) : EReal) + (d.loc : EReal)

/-- At probability zero the extended Gumbel quantile is minus infinity. -/
lemma gumbel_quantileE_zero (d : Gumbel) (hscale : 0 < d.scale) :
    d.quantileE 0 = ⊥ := by
  rw [Gumbel.quantileE, elog_coe_nonpos le_rfl, EReal.neg_bot, elog_top,
    EReal.coe_mul_top_of_pos hscale, EReal.sub_top]

/-- At probability one the extended Gumbel quantile is plus infinity. -/
lemma gumbel_quantileE_one (d : Gumbel) (hscale : 0 < d.scale) :
    d.quantileE 1 = ⊤ := by
  rw [Gumbel.quantileE, elog_one, neg_zero, elog_zero,
    EReal.coe_mul_bot_of_pos hscale, EReal.coe_sub_bot]

/-- On the open unit interval the extended Gumbel quantile coincides with the
real formula. -/
lemma gumbel_quantileE_interior (d : Gumbel) {p : ℝ} (h0 : 0 < p)
    (h1 : p < 1) : d.quantileE p = ↑(d.quantile p) := by
  have hA : 0 < -log p := neg_pos.2 (log_neg h0 h1)
  rw [Gumbel.quantileE, elog_coe_pos h0, ← EReal.coe_neg, elog_coe_pos hA,
    ← EReal.coe_mul, ← EReal.coe_sub]
  rfl

/-- The real Gumbel quantile is monotone on the open unit interval. -/
lemma gumbel_quantile_mono (d : Gumbel) (hscale : 0 < d.scale) {p1 p2 : ℝ}
    (h0 : 0 < p1) (h12 : p1 ≤ p2) (h2 : p2 < 1) :
    d.quantile p1 ≤ d.quantile p2 := by
  have hA2 : 0 < -log p2 := neg_pos.2 (log_neg (h0.trans_le h12) h2)
  have hle : -log p2 ≤ -log p1 := neg_le_neg (log_le_log h0 h12)
  have hL : log (-log p2) ≤ log (-log p1) := log_le_log hA2 hle
  simp only [Gumbel.quantile]
  have := mul_le_mul_of_nonneg_left hL hscale.le
  linarith

/-- The extended Gumbel quantile is monotone on the closed unit interval. -/
lemma gumbel_quantileE_mono (d : Gumbel) (hscale : 0 < d.scale) {p1 p2 : ℝ}
    (h0 : 0 ≤ p1) (h12 : p1 ≤ p2) (h2 : p2 ≤ 1) :
    d.quantileE p1 ≤ d.quantileE p2 := by
  rcases eq_or_lt_of_le h0 with h|h0p
  · rw [← h, gumbel_quantileE_zero d hscale]
    exact bot_le
  rcases eq_or_lt_of_le h2 with h|h2p
  · rw [h, gumbel_quantileE_one d hscale]
    exact le_top
  rw [gumbel_quantileE_interior d h0p (lt_of_le_of_lt h12 h2p),
    gumbel_quantileE_interior d (lt_of_lt_of_le h0p h12) h2p]
  exact EReal.coe_le_coe_iff.2 (gumbel_quantile_mono d hscale h0p h12 h2p)

/-- At probability zero the extended Frechet quantile is the location (the
lower boundary of the support). -/
lemma frechet_quantileE_zero (d : Frechet) (hshape : 0 < d.shape) :
    d.quantileE 0 = ↑d.loc := by
  rw [Frechet.quantileE, fval_negLog_zero,
    fval_pow_top_of_neg (div_neg_of_neg_of_pos (by norm_num) hshape)]
  simp [FVal.toEReal]

/-- At probability one the extended Frechet quantile is plus infinity when
the exponent -1/shape is not a negative odd integer: the base there is the
negative zero from `-log(1.0)` and pow then returns plus infinity. -/
lemma frechet_quantileE_one (d : Frechet) (hscale : 0 < d.scale)
    (hshape : 0 < d.shape) (hodd : ¬ isOddInt ((-1 : ℝ) / d.shape)) :
    d.quantileE 1 = ⊤ := by
  rw [Frechet.quantileE, fval_negLog_one,
    fval_pow_negZero_of_neg_not_odd
      (div_neg_of_neg_of_pos (by norm_num) hshape) hodd]
  simp only [FVal.toEReal]
  rw [EReal.coe_mul_top_of_pos hscale, EReal.coe_add_top]

/-- At probability one the extended Frechet quantile is MINUS infinity when
the exponent -1/shape is a negative odd integer (for example shape = 1):
the base is the negative zero from `-log(1.0)` and IEEE pow of a negative
zero to a negative odd integer is minus infinity. -/
lemma frechet_quantileE_one_oddInt (d : Frechet) (hscale : 0 < d.scale)
    (hshape : 0 < d.shape) (hodd : isOddInt ((-1 : ℝ) / d.shape)) :
    d.quantileE 1 = ⊥ := by
  rw [Frechet.quantileE, fval_negLog_one,
    fval_pow_negZero_of_neg_odd
      (div_neg_of_neg_of_pos (by norm_num) hshape) hodd]
  simp only [FVal.toEReal]
  rw [EReal.coe_mul_bot_of_pos hscale, EReal.add_bot]

/-- On the open unit interval the extended Frechet quantile coincides with
the real formula. -/
lemma frechet_quantileE_interior (d : Frechet) {p : ℝ} (h0 : 0 < p)
    (h1 : p < 1) : d.quantileE p = ↑(d.quantile p) := by
  have hA : 0 < -log p := neg_pos.2 (log_neg h0 h1)
  rw [Frechet.quantileE, fval_negLog_interior h0 h1, fval_pow_fin_pos hA]
  simp only [FVal.toEReal]
  rw [← EReal.coe_mul, ← EReal.coe_add]
  rfl

/-- The real Frechet quantile stays above the location on the open unit
interval. -/
lemma frechet_quantile_ge_loc (d : Frechet) (hscale : 0 < d.scale) {p : ℝ}
    (h0 : 0 < p) (h1 : p < 1) : d.loc ≤ d.quantile p := by
  have hA : 0 < -log p := neg_pos.2 (log_neg h0 h1)
  have ht : 0 < (-log p) ^ ((-1 : ℝ) / d.shape) := Real.rpow_pos_of_pos hA _
  simp only [Frechet.quantile]
  nlinarith

/-- The real Frechet quantile is monotone on the open unit interval. -/
lemma frechet_quantile_mono (d : Frechet) (hscale : 0 < d.scale)
    (hshape : 0 < d.shape) {p1 p2 : ℝ} (h0 : 0 < p1) (h12 : p1 ≤ p2)
    (h2 : p2 < 1) : d.quantile p1 ≤ d.quantile p2 := by
  have hA2 : 0 < -log p2 := neg_pos.2 (log_neg (h0.trans_le h12) h2)
  have hle : -log p2 ≤ -log p1 := neg_le_neg (log_le_log h0 h12)
  have hpow : (-log p1) ^ ((-1 : ℝ) / d.shape)
      ≤ (-log p2) ^ ((-1 : ℝ) / d.shape) :=
    Real.rpow_le_rpow_of_nonpos hA2 hle
      (div_neg_of_neg_of_pos (by norm_num) hshape).le
  simp only [Frechet.quantile]
  have := mul_le_mul_of_nonneg_left hpow hscale.le
  linarith

/-- The extended Frechet quantile is monotone on the closed unit interval,
provided that when the right endpoint is 1 the pow exponent -1/shape is not
a negative odd integer. -/
lemma frechet_quantileE_mono (d : Frechet) (hscale : 0 < d.scale)
    (hshape : 0 < d.shape) {p1 p2 : ℝ} (h0 : 0 ≤ p1) (h12 : p1 ≤ p2)
    (h2 : p2 ≤ 1) (hone : p2 = 1 → ¬ isOddInt ((-1 : ℝ) / d.shape)) :
    d.quantileE p1 ≤ d.quantileE p2 := by
  rcases eq_or_lt_of_le h2 with h|h2p
  · rw [h, frechet_quantileE_one d hscale hshape (hone h)]
    exact le_top
  rcases eq_or_lt_of_le h0 with h|h0p
  · rw [← h, frechet_quantileE_zero d hshape]
    rcases eq_or_lt_of_le (le_trans h.le h12) with h2z|h2z
    · rw [← h2z, frechet_quantileE_zero d hshape]
    · rw [frechet_quantileE_interior d h2z h2p]
      exact EReal.coe_le_coe_iff.2 (frechet_quantile_ge_loc d hscale h2z h2p)
  · rw [frechet_quantileE_interior d h0p (lt_of_le_of_lt h12 h2p),
      frechet_quantileE_interior d (lt_of_lt_of_le h0p h12) h2p]
    exact EReal.coe_le_coe_iff.2
      (frechet_quantile_mono d hscale hshape h0p h12 h2p)

/-- At probability zero the extended Weibull quantile is minus infinity. -/
lemma weibull_quantileE_zero (d : Weibull) (hscale : 0 < d.scale)
    (hshape : 0 < d.shape) : d.quantileE 0 = ⊥ := by
  rw [Weibull.quantileE, fval_negLog_zero,
    fval_pow_top_of_pos (div_pos one_pos hshape)]
  simp only [FVal.toEReal]
  rw [EReal.coe_mul_top_of_pos hscale, EReal.sub_top]

/-- At probability one the extended Weibull quantile is the location (the
upper boundary of the support): the base is the negative zero from
`-log(1.0)`, and a positive power of it is a zero of either sign, hence
numerically zero. -/
lemma weibull_quantileE_one (d : Weibull) (hshape : 0 < d.shape) :
    d.quantileE 1 = ↑d.loc := by
  rw [Weibull.quantileE, fval_negLog_one,
    fval_toEReal_pow_negZero_of_pos (div_pos one_pos hshape), mul_zero,
    sub_zero]

/-- On the open unit interval the extended Weibull quantile coincides with
the real formula. -/
lemma weibull_quantileE_interior (d : Weibull) {p : ℝ} (h0 : 0 < p)
    (h1 : p < 1) : d.quantileE p = ↑(d.quantile p) := by
  have hA : 0 < -log p := neg_pos.2 (log_neg h0 h1)
  rw [Weibull.quantileE, fval_negLog_interior h0 h1, fval_pow_fin_pos hA]
  simp only [FVal.toEReal]
  rw [← EReal.coe_mul, ← EReal.coe_sub]
  rfl

/-- The real Weibull quantile stays below the location on the open unit
interval. -/
lemma weibull_quantile_le_loc (d : Weibull) (hscale : 0 < d.scale) {p : ℝ}
    (h0 : 0 < p) (h1 : p < 1) : d.quantile p ≤ d.loc := by
  have hA : 0 < -log p := neg_pos.2 (log_neg h0 h1)
  have ht : 0 < (-log p) ^ ((1 : ℝ) / d.shape) := Real.rpow_pos_of_pos hA _
  simp only [Weibull.quantile]
  nlinarith

/-- The real Weibull quantile is monotone on the open unit interval. -/
lemma weibull_quantile_mono (d : Weibull) (hscale : 0 < d.scale)
    (hshape : 0 < d.shape) {p1 p2 : ℝ} (h0 : 0 < p1) (h12 : p1 ≤ p2)
    (h2 : p2 < 1) : d.quantile p1 ≤ d.quantile p2 := by
  have hA2 : 0 < -log p2 := neg_pos.2 (log_neg (h0.trans_le h12) h2)
  have hle : -log p2 ≤ -log p1 := neg_le_neg (log_le_log h0 h12)
  have hpow : (-log p2) ^ ((1 : ℝ) / d.shape)
      ≤ (-log p1) ^ ((1 : ℝ) / d.shape) :=
    Real.rpow_le_rpow hA2.le hle (div_pos one_pos hshape).le
  simp only [Weibull.quantile]
  have := mul_le_mul_of_nonneg_left hpow hscale.le
  linarith

/-- The extended Weibull quantile is monotone on the closed unit interval. -/
lemma weibull_quantileE_mono (d : Weibull) (hscale : 0 < d.scale)
    (hshape : 0 < d.shape) {p1 p2 : ℝ} (h0 : 0 ≤ p1) (h12 : p1 ≤ p2)
    (h2 : p2 ≤ 1) : d.quantileE p1 ≤ d.quantileE p2 := by
  rcases eq_or_lt_of_le h0 with h|h0p
  · rw [← h, weibull_quantileE_zero d hscale hshape]
    exact bot_le
  rcases eq_or_lt_of_le h2 with h|h2p
  · rw [h, weibull_quantileE_one d hshape]
    rcases eq_or_lt_of_le (le_trans h12 h.le) with h1o|h1o
    · rw [h1o, weibull_quantileE_one d hshape]
    · rw [weibull_quantileE_interior d h0p h1o]
      exact EReal.coe_le_coe_iff.2 (weibull_quantile_le_loc d hscale h0p h1o)
  · rw [weibull_quantileE_interior d h0p (lt_of_le_of_lt h12 h2p),
      weibull_quantileE_interior d (lt_of_lt_of_le h0p h12) h2p]
    exact EReal.coe_le_coe_iff.2
      (weibull_quantile_mono d hscale hshape h0p h12 h2p)

/-- At probability zero the extended GEV quantile with shape zero is minus
infinity (the Gumbel branch). -/
lemma gev_quantileE_zero_of_shape_eq_zero (d : GEV) (hscale : 0 < d.scale)
    (hs : d.shape = 0) : d.quantileE 0 = ⊥ := by
  rw [GEV.quantileE, if_pos hs, fval_negLog_zero]
  simp only [FVal.log, FVal.toEReal]
  rw [← EReal.coe_neg, EReal.coe_mul_top_of_neg (neg_lt_zero.2 hscale),
    EReal.bot_add]

/-- At probability one the extended GEV quantile with shape zero is plus
infinity: the inner log receives the negative zero from `-log(1.0)`, and
the IEEE log of either zero is minus infinity. -/
lemma gev_quantileE_one_of_shape_eq_zero (d : GEV) (hscale : 0 < d.scale)
    (hs : d.shape = 0) : d.quantileE 1 = ⊤ := by
  rw [GEV.quantileE, if_pos hs, fval_negLog_one]
  simp only [FVal.log, FVal.toEReal]
  rw [← EReal.coe_neg, EReal.coe_mul_bot_of_neg (neg_lt_zero.2 hscale),
    EReal.top_add_coe]

/-- On the open unit interval the extended GEV quantile with shape zero
coincides with the real formula. -/
lemma gev_quantileE_interior_of_shape_eq_zero (d : GEV) (hs : d.shape = 0)
    {p : ℝ} (h0 : 0 < p) (h1 : p < 1) : d.quantileE p = ↑(d.quantile p) := by
  have hA : 0 < -log p := neg_pos.2 (log_neg h0 h1)
  rw [GEV.quantileE, if_pos hs, fval_negLog_interior h0 h1]
  simp only [FVal.log]
  rw [if_neg (not_le.2 hA)]
  simp only [FVal.toEReal]
  rw [← EReal.coe_neg, ← EReal.coe_mul, ← EReal.coe_add]
  simp only [GEV.quantile, if_pos hs]

/-- At probability zero the extended GEV quantile with positive shape is the
finite lower boundary of the support. -/
lemma gev_quantileE_zero_of_shape_pos (d : GEV) (hs : 0 < d.shape) :
    d.quantileE 0 = ↑((0 : ℝ) - d.scale / d.shape + d.loc) := by
  rw [GEV.quantileE, if_neg hs.ne', fval_negLog_zero,
    fval_pow_top_of_neg (neg_lt_zero.2 hs)]
  simp only [FVal.toEReal]
  rw [← EReal.coe_mul, ← EReal.coe_sub, ← EReal.coe_add,
    EReal.coe_eq_coe_iff]
  ring

/-- At probability one the extended GEV quantile with positive shape is
plus infinity when the exponent -shape is not a negative odd integer: the
base is the negative zero from `-log(1.0)`. -/
lemma gev_quantileE_one_of_shape_pos (d : GEV) (hscale : 0 < d.scale)
    (hs : 0 < d.shape) (hodd : ¬ isOddInt (-d.shape)) :
    d.quantileE 1 = ⊤ := by
  rw [GEV.quantileE, if_neg hs.ne', fval_negLog_one,
    fval_pow_negZero_of_neg_not_odd (neg_lt_zero.2 hs) hodd]
  simp only [FVal.toEReal]
  rw [EReal.coe_mul_top_of_pos (div_pos hscale hs), EReal.top_sub_coe,
    EReal.top_add_coe]

/-- At probability one the extended GEV quantile with a positive
odd-integer shape is MINUS infinity (for example shape = 1 or 3): IEEE pow
of the negative zero from `-log(1.0)` to a negative odd integer is minus
infinity. -/
lemma gev_quantileE_one_of_shape_pos_oddInt (d : GEV) (hscale : 0 < d.scale)
    (hs : 0 < d.shape) (hodd : isOddInt (-d.shape)) :
    d.quantileE 1 = ⊥ := by
  rw [GEV.quantileE, if_neg hs.ne', fval_negLog_one,
    fval_pow_negZero_of_neg_odd (neg_lt_zero.2 hs) hodd]
  simp only [FVal.toEReal]
  rw [EReal.coe_mul_bot_of_pos (div_pos hscale hs), EReal.bot_sub,
    EReal.bot_add]

/-- At probability zero the extended GEV quantile with negative shape is
minus infinity. -/
lemma gev_quantileE_zero_of_shape_neg (d : GEV) (hscale : 0 < d.scale)
    (hs : d.shape < 0) : d.quantileE 0 = ⊥ := by
  rw [GEV.quantileE, if_neg hs.ne, fval_negLog_zero,
    fval_pow_top_of_pos (neg_pos.2 hs)]
  simp only [FVal.toEReal]
  rw [EReal.coe_mul_top_of_neg (div_neg_of_pos_of_neg hscale hs),
    EReal.bot_sub, EReal.bot_add]

/-- At probability one the extended GEV quantile with negative shape is the
finite upper boundary of the support: a positive power of the negative zero
from `-log(1.0)` is a zero of either sign, hence numerically zero. -/
lemma gev_quantileE_one_of_shape_neg (d : GEV) (hs : d.shape < 0) :
    d.quantileE 1 = ↑((0 : ℝ) - d.scale / d.shape + d.loc) := by
  rw [GEV.quantileE, if_neg hs.ne, fval_negLog_one,
    fval_toEReal_pow_negZero_of_pos (neg_pos.2 hs), mul_zero,
    ← EReal.coe_zero, ← EReal.coe_sub, ← EReal.coe_add]

/-- On the open unit interval the extended GEV quantile with nonzero shape
coincides with the real formula. -/
lemma gev_quantileE_interior_of_shape_ne_zero (d : GEV) (hs : d.shape ≠ 0)
    {p : ℝ} (h0 : 0 < p) (h1 : p < 1) : d.quantileE p = ↑(d.quantile p) := by
  have hA : 0 < -log p := neg_pos.2 (log_neg h0 h1)
  rw [GEV.quantileE, if_neg hs, fval_negLog_interior h0 h1,
    fval_pow_fin_pos hA]
  simp only [FVal.toEReal]
  rw [← EReal.coe_mul, ← EReal.coe_sub, ← EReal.coe_add]
  simp only [GEV.quantile, if_neg hs]

/-- The real GEV quantile with shape zero is monotone on the open unit
interval. -/
lemma gev_quantile_mono_shape_zero (d : GEV) (hscale : 0 < d.scale)
    (hs : d.shape = 0) {p1 p2 : ℝ} (h0 : 0 < p1) (h12 : p1 ≤ p2)
    (h2 : p2 < 1) : d.quantile p1 ≤ d.quantile p2 := by
  have hA2 : 0 < -log p2 := neg_pos.2 (log_neg (h0.trans_le h12) h2)
  have hle : -log p2 ≤ -log p1 := neg_le_neg (log_le_log h0 h12)
  have hL : log (-log p2) ≤ log (-log p1) := log_le_log hA2 hle
  simp only [GEV.quantile, if_pos hs]
  have := mul_le_mul_of_nonneg_left hL hscale.le
  linarith

/-- The real GEV quantile with positive shape is monotone on the open unit
interval. -/
lemma gev_quantile_mono_shape_pos (d : GEV) (hscale : 0 < d.scale)
    (hs : 0 < d.shape) {p1 p2 : ℝ} (h0 : 0 < p1) (h12 : p1 ≤ p2)
    (h2 : p2 < 1) : d.quantile p1 ≤ d.quantile p2 := by
  have hA2 : 0 < -log p2 := neg_pos.2 (log_neg (h0.trans_le h12) h2)
  have hle : -log p2 ≤ -log p1 := neg_le_neg (log_le_log h0 h12)
  have hpow : (-log p1) ^ (-d.shape) ≤ (-log p2) ^ (-d.shape) :=
    Real.rpow_le_rpow_of_nonpos hA2 hle (neg_nonpos.2 hs.le)
  simp only [GEV.quantile, if_neg hs.ne']
  have := mul_le_mul_of_nonneg_left hpow (div_pos hscale hs).le
  linarith

/-- The real GEV quantile with negative shape is monotone on the open unit
interval. -/
lemma gev_quantile_mono_shape_neg (d : GEV) (hscale : 0 < d.scale)
    (hs : d.shape < 0) {p1 p2 : ℝ} (h0 : 0 < p1) (h12 : p1 ≤ p2)
    (h2 : p2 < 1) : d.quantile p1 ≤ d.quantile p2 := by
  have hA2 : 0 < -log p2 := neg_pos.2 (log_neg (h0.trans_le h12) h2)
  have hle : -log p2 ≤ -log p1 := neg_le_neg (log_le_log h0 h12)
  have hpow : (-log p2) ^ (-d.shape) ≤ (-log p1) ^ (-d.shape) :=
    Real.rpow_le_rpow hA2.le hle (neg_nonneg.2 hs.le)
  simp only [GEV.quantile, if_neg hs.ne]
  have := mul_le_mul_of_nonpos_left hpow
    (div_neg_of_pos_of_neg hscale hs).le
  linarith

/-- With positive shape the real GEV quantile stays above the finite lower
boundary of the support. -/
lemma gev_quantile_ge_lower_shape_pos (d : GEV) (hscale : 0 < d.scale)
    (hs : 0 < d.shape) {p : ℝ} (h0 : 0 < p) (h1 : p < 1) :
    (0 : ℝ) - d.scale / d.shape + d.loc ≤ d.quantile p := by
  have hA : 0 < -log p := neg_pos.2 (log_neg h0 h1)
  have hT : 0 < (-log p) ^ (-d.shape) := Real.rpow_pos_of_pos hA _
  have hc : 0 < d.scale / d.shape := div_pos hscale hs
  simp only [GEV.quantile, if_neg hs.ne']
  nlinarith

/-- With negative shape the real GEV quantile stays below the finite upper
boundary of the support. -/
lemma gev_quantile_le_upper_shape_neg (d : GEV) (hscale : 0 < d.scale)
    (hs : d.shape < 0) {p : ℝ} (h0 : 0 < p) (h1 : p < 1) :
    d.quantile p ≤ (0 : ℝ) - d.scale / d.shape + d.loc := by
  have hA : 0 < -log p := neg_pos.2 (log_neg h0 h1)
  have hT : 0 < (-log p) ^ (-d.shape) := Real.rpow_pos_of_pos hA _
  have hc : d.scale / d.shape < 0 := div_neg_of_pos_of_neg hscale hs
  simp only [GEV.quantile, if_neg hs.ne]
  nlinarith

/-- The extended GEV quantile is monotone on the closed unit interval for
every shape, provided that when the right endpoint is 1 and the shape is
positive, the shape is not an odd integer. -/
lemma gev_quantileE_mono (d : GEV) (hscale : 0 < d.scale) {p1 p2 : ℝ}
    (h0 : 0 ≤ p1) (h12 : p1 ≤ p2) (h2 : p2 ≤ 1)
    (hone : p2 = 1 → 0 < d.shape → ¬ isOddInt (-d.shape)) :
    d.quantileE p1 ≤ d.quantileE p2 := by
  rcases lt_trichotomy d.shape 0 with hs|hs|hs
  · rcases eq_or_lt_of_le h0 with h|h0p
    · rw [← h, gev_quantileE_zero_of_shape_neg d hscale hs]
      exact bot_le
    rcases eq_or_lt_of_le h2 with h|h2p
    · rw [h, gev_quantileE_one_of_shape_neg d hs]
      rcases eq_or_lt_of_le (le_trans h12 h.le) with h1o|h1o
      · rw [h1o, gev_quantileE_one_of_shape_neg d hs]
      · rw [gev_quantileE_interior_of_shape_ne_zero d hs.ne h0p h1o]
        exact EReal.coe_le_coe_iff.2
          (gev_quantile_le_upper_shape_neg d hscale hs h0p h1o)
    · rw [gev_quantileE_interior_of_shape_ne_zero d hs.ne h0p
        (lt_of_le_of_lt h12 h2p),
        gev_quantileE_interior_of_shape_ne_zero d hs.ne
          (lt_of_lt_of_le h0p h12) h2p]
      exact EReal.coe_le_coe_iff.2
        (gev_quantile_mono_shape_neg d hscale hs h0p h12 h2p)
  · rcases eq_or_lt_of_le h0 with h|h0p
    · rw [← h, gev_quantileE_zero_of_shape_eq_zero d hscale hs]
      exact bot_le
    rcases eq_or_lt_of_le h2 with h|h2p
    · rw [h, gev_quantileE_one_of_shape_eq_zero d hscale hs]
      exact le_top
    rw [gev_quantileE_interior_of_shape_eq_zero d hs h0p
      (lt_of_le_of_lt h12 h2p),
      gev_quantileE_interior_of_shape_eq_zero d hs
        (lt_of_lt_of_le h0p h12) h2p]
    exact EReal.coe_le_coe_iff.2
      (gev_quantile_mono_shape_zero d hscale hs h0p h12 h2p)
  · rcases eq_or_lt_of_le h2 with h|h2p
    · rw [h, gev_quantileE_one_of_shape_pos d hscale hs (hone h hs)]
      exact le_top
    rcases eq_or_lt_of_le h0 with h|h0p
    · rw [← h, gev_quantileE_zero_of_shape_pos d hs]
      rcases eq_or_lt_of_le (le_trans h.le h12) with h2z|h2z
      · rw [← h2z, gev_quantileE_zero_of_shape_pos d hs]
      · rw [gev_quantileE_interior_of_shape_ne_zero d hs.ne' h2z h2p]
        exact EReal.coe_le_coe_iff.2
          (gev_quantile_ge_lower_shape_pos d hscale hs h2z h2p)
    · rw [gev_quantileE_interior_of_shape_ne_zero d hs.ne' h0p
        (lt_of_le_of_lt h12 h2p),
        gev_quantileE_interior_of_shape_ne_zero d hs.ne'
          (lt_of_lt_of_le h0p h12) h2p]
      exact EReal.coe_le_coe_iff.2
        (gev_quantile_mono_shape_pos d hscale hs h0p h12 h2p)

/-- The exponent -1/2 is not an odd integer. -/
lemma not_isOddInt_neg_half : ¬ isOddInt ((-1 : ℝ) / 2) := by
  rintro ⟨k, hk, he⟩
  obtain ⟨m, hm⟩ := hk
  have h2 : ((2 * k : ℤ) : ℝ) = -1 := by
    push_cast
    linarith
  have h3 : (2 * k : ℤ) = -1 := by
    exact_mod_cast h2
  omega

/-- The exponent -2 is not an odd integer. -/
lemma not_isOddInt_neg_two : ¬ isOddInt (-(2 : ℝ)) := by
  rintro ⟨k, hk, he⟩
  obtain ⟨m, hm⟩ := hk
  have h3 : (k : ℤ) = -2 := by
    exact_mod_cast he
  omega

/-- C5 (counterexample): the claim fails as stated on the code: the Frechet
distribution with location 0, scale 1 and shape 1 has valid parameters, the
probabilities 1/2 and 1 satisfy 0 <= 1/2 <= 1 <= 1, yet the quantile at 1
is NOT above the quantile at 1/2 — the code evaluates
pow(-log(1.0), -1/1) = pow(-0.0, -1), and IEEE pow of a negative zero to a
negative odd integer is minus infinity, strictly below the finite quantile
at 1/2. -/
theorem quantile_monotone_counterexample :
    0 < (Frechet.new 0 1 1).scale ∧ 0 < (Frechet.new 0 1 1).shape ∧
    (0 : ℝ) ≤ 1 / 2 ∧ (1 : ℝ) / 2 ≤ 1 ∧ (1 : ℝ) ≤ 1 ∧
    ¬ ((Frechet.new 0 1 1).quantileE (1 / 2)
        ≤ (Frechet.new 0 1 1).quantileE 1) := by
  refine ⟨by norm_num [Frechet.new], by norm_num [Frechet.new], by norm_num,
    by norm_num, le_rfl, ?_⟩
  have hodd : isOddInt ((-1 : ℝ) / (Frechet.new 0 1 1).shape) := by
    refine ⟨-1, ⟨-1, by ring⟩, ?_⟩
    norm_num [Frechet.new]
  rw [frechet_quantileE_one_oddInt (Frechet.new 0 1 1)
      (by norm_num [Frechet.new]) (by norm_num [Frechet.new]) hodd,
    frechet_quantileE_interior (Frechet.new 0 1 1) (by norm_num)
      (by norm_num)]
  simp

/-- C5 (amended): for Gumbel and Weibull the quantile is non-decreasing on
the whole closed unit interval; for Frechet and GEV it is non-decreasing
there as well, except that the right endpoint 1 may only be included when
the pow exponent evaluated at probability 1 (-1/shape for Frechet, -shape
for GEV with positive shape) is not a negative odd integer — in the
excluded case the code computes pow(-0.0, negative odd integer) = minus
infinity at probability 1 and monotonicity fails, as the counterexample
shows. -/
theorem quantile_monotone_amended (g : Gumbel) (f : Frechet) (w : Weibull)
    (v : GEV) (hg : 0 < g.scale) (hf1 : 0 < f.scale) (hf2 : 0 < f.shape)
    (hw1 : 0 < w.scale) (hw2 : 0 < w.shape) (hv : 0 < v.scale)
    {p1 p2 : ℝ} (h0 : 0 ≤ p1) (h12 : p1 ≤ p2) (h2 : p2 ≤ 1)
    (hf3 : p2 = 1 → ¬ isOddInt ((-1 : ℝ) / f.shape))
    (hv3 : p2 = 1 → 0 < v.shape → ¬ isOddInt (-v.shape)) :
    g.quantileE p1 ≤ g.quantileE p2 ∧ f.quantileE p1 ≤ f.quantileE p2 ∧
    w.quantileE p1 ≤ w.quantileE p2 ∧ v.quantileE p1 ≤ v.quantileE p2 :=
  ⟨gumbel_quantileE_mono g hg h0 h12 h2,
    frechet_quantileE_mono f hf1 hf2 h0 h12 h2 hf3,
    weibull_quantileE_mono w hw1 hw2 h0 h12 h2,
    gev_quantileE_mono v hv h0 h12 h2 hv3⟩

/-- Witness for the amended C5 at concrete parameters, from probability 0
to probability 1 (exercising the boundary provisos at shape 2). -/
theorem quantile_monotone_amended_witness :
    (0 : ℝ) < 1 ∧ ((0 : ℝ) ≤ 0 ∧ (0 : ℝ) ≤ 1) ∧
    (¬ isOddInt ((-1 : ℝ) / 2) ∧ ¬ isOddInt (-(2 : ℝ))) ∧
    ((Gumbel.new 0 1).quantileE 0 ≤ (Gumbel.new 0 1).quantileE 1 ∧
     (Frechet.new 0 1 2).quantileE 0 ≤ (Frechet.new 0 1 2).quantileE 1 ∧
     (Weibull.new 0 1 1).quantileE 0 ≤ (Weibull.new 0 1 1).quantileE 1 ∧
     (GEV.new 0 1 2).quantileE 0 ≤ (GEV.new 0 1 2).quantileE 1) :=
  ⟨by norm_num, ⟨le_rfl, by norm_num⟩,
    ⟨not_isOddInt_neg_half, not_isOddInt_neg_two⟩,
    quantile_monotone_amended (Gumbel.new 0 1) (Frechet.new 0 1 2)
      (Weibull.new 0 1 1) (GEV.new 0 1 2) (by norm_num [Gumbel.new])
      (by norm_num [Frechet.new]) (by norm_num [Frechet.new])
      (by norm_num [Weibull.new]) (by norm_num [Weibull.new])
      (by norm_num [GEV.new]) le_rfl (by norm_num) le_rfl
      (fun _ => not_isOddInt_neg_half) (fun _ _ => not_isOddInt_neg_two)⟩

/-- C6: for every Gumbel distribution with positive scale, the quantile at
probability 0 is minus infinity and at probability 1 is plus infinity, in
the extended-real evaluation of the source formula under the IEEE log
semantics. -/
theorem gumbel_quantile_boundary (d : Gumbel) (hscale : 0 < d.scale) :
    d.quantileE 0 = ⊥ ∧ d.quantileE 1 = ⊤ :=
  ⟨gumbel_quantileE_zero d hscale, gumbel_quantileE_one d hscale⟩

/-- Witness for C6 at a concrete location and scale. -/
theorem gumbel_quantile_boundary_witness :
    0 < (Gumbel.new 3 2).scale ∧
    ((Gumbel.new 3 2).quantileE 0 = ⊥ ∧ (Gumbel.new 3 2).quantileE 1 = ⊤) :=
  ⟨by norm_num [Gumbel.new],
    gumbel_quantile_boundary (Gumbel.new 3 2) (by norm_num [Gumbel.new])⟩

/-- The helper `t_func` is nonnegative whenever the affine domain condition
holds (it is an exponential or a real power of a nonnegative base). -/
lemma GEV.t_func_nonneg (d : GEV) {x : ℝ}
    (h : 0 ≤ 1 + d.shape * ((x - d.loc) / d.scale)) : 0 ≤ d.t_func x := by
  simp only [GEV.t_func]
  by_cases hs : d.shape = 0
  · rw [if_pos hs]
    exact (exp_pos _).le
  · rw [if_neg hs]
    exact Real.rpow_nonneg h _

/-- Round-trip computation for the Gumbel distribution on the open unit
interval: the cdf inverts the quantile exactly over the reals. -/
lemma gumbel_roundtrip (d : Gumbel) (hscale : 0 < d.scale) {p : ℝ}
    (h0 : 0 < p) (h1 : p < 1) : d.cdf (d.quantile p) = p := by
  have hA : 0 < -log p := neg_pos.2 (log_neg h0 h1)
  simp only [Gumbel.cdf, Gumbel.quantile]
  have h2 : (d.loc - d.scale * log (-log p) - d.loc) / d.scale
      = -log (-log p) := by
    rw [div_eq_iff hscale.ne']
    ring
  rw [h2, neg_neg, exp_log hA, neg_neg, exp_log h0]

/-- Round-trip computation for the Frechet distribution on the open unit
interval. -/
lemma frechet_roundtrip (d : Frechet) (hscale : 0 < d.scale)
    (hshape : 0 < d.shape) {p : ℝ} (h0 : 0 < p) (h1 : p < 1) :
    d.cdf (d.quantile p) = p := by
  have hA : 0 < -log p := neg_pos.2 (log_neg h0 h1)
  simp only [Frechet.cdf, Frechet.quantile]
  have h2 : (d.loc + d.scale * (-log p) ^ ((-1 : ℝ) / d.shape) - d.loc)
      / d.scale = (-log p) ^ ((-1 : ℝ) / d.shape) := by
    rw [div_eq_iff hscale.ne']
    ring
  rw [h2, ← Real.rpow_mul hA.le]
  have h3 : (-1 : ℝ) / d.shape * -d.shape = 1 := by
    field_simp
  rw [h3, Real.rpow_one, neg_neg, exp_log h0]

/-- Round-trip computation for the Weibull distribution on the open unit
interval. -/
lemma weibull_roundtrip (d : Weibull) (hscale : 0 < d.scale)
    (hshape : 0 < d.shape) {p : ℝ} (h0 : 0 < p) (h1 : p < 1) :
    d.cdf (d.quantile p) = p := by
  have hA : 0 < -log p := neg_pos.2 (log_neg h0 h1)
  simp only [Weibull.cdf, Weibull.quantile]
  have h2 : -((d.loc - d.scale * (-log p) ^ ((1 : ℝ) / d.shape) - d.loc)
      / d.scale) = (-log p) ^ ((1 : ℝ) / d.shape) := by
    rw [neg_eq_iff_eq_neg, div_eq_iff hscale.ne']
    ring
  rw [h2, ← Real.rpow_mul hA.le]
  have h3 : (1 : ℝ) / d.shape * d.shape = 1 := by
    field_simp
  rw [h3, Real.rpow_one, neg_neg, exp_log h0]

/-- Round-trip computation for the GEV distribution on the open unit
interval, for any shape (both branches of `t_func` and `quantile`). -/
lemma gev_roundtrip (d : GEV) (hscale : 0 < d.scale) {p : ℝ}
    (h0 : 0 < p) (h1 : p < 1) : d.cdf (d.quantile p) = p := by
  have hA : 0 < -log p := neg_pos.2 (log_neg h0 h1)
  by_cases hs : d.shape = 0
  · simp only [GEV.cdf, GEV.t_func, GEV.quantile, if_pos hs]
    have h2 : (-d.scale * log (-log p) + d.loc - d.loc) / d.scale
        = -log (-log p) := by
      rw [div_eq_iff hscale.ne']
      ring
    rw [h2, neg_neg, exp_log hA, neg_neg, exp_log h0]
  · simp only [GEV.cdf, GEV.t_func, GEV.quantile, if_neg hs]
    have h2 : 1 + d.shape *
        ((d.scale / d.shape * (-log p) ^ (-d.shape) - d.scale / d.shape
          + d.loc - d.loc) / d.scale) = (-log p) ^ (-d.shape) := by
      field_simp
      ring
    rw [h2, ← Real.rpow_mul hA.le]
    have h3 : -d.shape * ((-1 : ℝ) / d.shape) = 1 := by
      field_simp
    rw [h3, Real.rpow_one, neg_neg, exp_log h0]

/-- C3: at shape zero the GEV distribution coincides with the Gumbel
distribution with the same location and scale, for cdf, pdf and quantile at
every input. -/
theorem gev_shape_zero_is_gumbel (loc scale : ℝ) (hscale : 0 < scale) :
    (∀ x, (GEV.new loc scale 0).cdf x = (Gumbel.new loc scale).cdf x) ∧
    (∀ x, (GEV.new loc scale 0).pdf x = (Gumbel.new loc scale).pdf x) ∧
    (∀ p, (GEV.new loc scale 0).quantile p = (Gumbel.new loc scale).quantile p)
    := by
  refine ⟨fun x => ?_, fun x => ?_, fun p => ?_⟩
  · simp [GEV.cdf, GEV.t_func, Gumbel.cdf, GEV.new, Gumbel.new]
  · simp only [GEV.pdf, GEV.t_func, Gumbel.pdf, GEV.new, Gumbel.new]
    norm_num [Real.rpow_one]
  · simp only [GEV.quantile, Gumbel.quantile, GEV.new, Gumbel.new, if_pos]
    ring

/-- Witness for C3 at a concrete location and scale. -/
theorem gev_shape_zero_is_gumbel_witness :
    (0 : ℝ) < 2 ∧
    ((∀ x, (GEV.new 1 2 0).cdf x = (Gumbel.new 1 2).cdf x) ∧
     (∀ x, (GEV.new 1 2 0).pdf x = (Gumbel.new 1 2).pdf x) ∧
     (∀ p, (GEV.new 1 2 0).quantile p = (Gumbel.new 1 2).quantile p)) :=
  ⟨by norm_num, gev_shape_zero_is_gumbel 1 2 (by norm_num)⟩

/-- C7: on the stated domain of each distribution with valid parameters, the
probability density function is nonnegative. -/
theorem pdf_nonneg (g : Gumbel) (f : Frechet) (w : Weibull) (v : GEV)
    (hg : 0 < g.scale) (hf1 : 0 < f.scale) (hf2 : 0 < f.shape)
    (hw1 : 0 < w.scale) (hw2 : 0 < w.shape) (hv : 0 < v.scale) :
    (∀ x, 0 ≤ g.pdf x) ∧
    (∀ x, f.loc < x → 0 ≤ f.pdf x) ∧
    (∀ x, x < w.loc → 0 ≤ w.pdf x) ∧
    (∀ x, 0 < 1 + v.shape * ((x - v.loc) / v.scale) → 0 ≤ v.pdf x) := by
  refine ⟨fun x => ?_, fun x hx => ?_, fun x hx => ?_, fun x hx => ?_⟩
  · simp only [Gumbel.pdf]
    have h1 : (0 : ℝ) ≤ 1 / g.scale := by positivity
    exact mul_nonneg (mul_nonneg h1 (exp_pos _).le) (exp_pos _).le
  · simp only [Frechet.pdf]
    have hy : (0 : ℝ) ≤ (x - f.loc) / f.scale :=
      div_nonneg (sub_nonneg.2 hx.le) hf1.le
    exact mul_nonneg
      (mul_nonneg (div_nonneg hf2.le hf1.le) (Real.rpow_nonneg hy _))
      (exp_pos _).le
  · simp only [Weibull.pdf]
    have hy : (0 : ℝ) ≤ -((x - w.loc) / w.scale) := by
      rw [neg_nonneg]
      exact div_nonpos_of_nonpos_of_nonneg (sub_nonpos.2 hx.le) hw1.le
    exact mul_nonneg
      (mul_nonneg (div_nonneg hw2.le hw1.le) (Real.rpow_nonneg hy _))
      (exp_pos _).le
  · simp only [GEV.pdf]
    have ht : 0 ≤ v.t_func x := GEV.t_func_nonneg v hx.le
    have h1 : (0 : ℝ) ≤ 1 / v.scale := by positivity
    exact mul_nonneg (mul_nonneg h1 (Real.rpow_nonneg ht _)) (exp_pos _).le

/-- Witness for C7 at concrete parameter values. -/
theorem pdf_nonneg_witness :
    (0 : ℝ) < 1 ∧
    ((∀ x, 0 ≤ (Gumbel.new 0 1).pdf x) ∧
     (∀ x, (Frechet.new 0 1 1).loc < x → 0 ≤ (Frechet.new 0 1 1).pdf x) ∧
     (∀ x, x < (Weibull.new 0 1 1).loc → 0 ≤ (Weibull.new 0 1 1).pdf x) ∧
     (∀ x, 0 < 1 + (GEV.new 0 1 1).shape
          * ((x - (GEV.new 0 1 1).loc) / (GEV.new 0 1 1).scale) →
        0 ≤ (GEV.new 0 1 1).pdf x)) :=
  ⟨by norm_num,
    pdf_nonneg (Gumbel.new 0 1) (Frechet.new 0 1 1) (Weibull.new 0 1 1)
      (GEV.new 0 1 1) (by norm_num [Gumbel.new]) (by norm_num [Frechet.new])
      (by norm_num [Frechet.new]) (by norm_num [Weibull.new])
      (by norm_num [Weibull.new]) (by norm_num [GEV.new])⟩

/-- C4: for each of the four distributions with valid parameters and every
probability in the open unit interval, the cdf inverts the quantile: the
round trip `cdf(quantile(p))` returns exactly `p` in the real model (hence
within any floating-point tolerance). -/
theorem cdf_quantile_roundtrip (g : Gumbel) (f : Frechet) (w : Weibull)
    (v : GEV) (hg : 0 < g.scale) (hf1 : 0 < f.scale) (hf2 : 0 < f.shape)
    (hw1 : 0 < w.scale) (hw2 : 0 < w.shape) (hv : 0 < v.scale)
    {p : ℝ} (hp0 : 0 < p) (hp1 : p < 1) :
    g.cdf (g.quantile p) = p ∧ f.cdf (f.quantile p) = p ∧
    w.cdf (w.quantile p) = p ∧ v.cdf (v.quantile p) = p :=
  ⟨gumbel_roundtrip g hg hp0 hp1, frechet_roundtrip f hf1 hf2 hp0 hp1,
    weibull_roundtrip w hw1 hw2 hp0 hp1, gev_roundtrip v hv hp0 hp1⟩

/-- Witness for C4 at concrete parameters and probability one half. -/
theorem cdf_quantile_roundtrip_witness :
    (0 : ℝ) < 1 ∧ (0 : ℝ) < 1 / 2 ∧ (1 : ℝ) / 2 < 1 ∧
    ((Gumbel.new 0 1).cdf ((Gumbel.new 0 1).quantile (1 / 2)) = 1 / 2 ∧
     (Frechet.new 0 1 1).cdf ((Frechet.new 0 1 1).quantile (1 / 2)) = 1 / 2 ∧
     (Weibull.new 0 1 1).cdf ((Weibull.new 0 1 1).quantile (1 / 2)) = 1 / 2 ∧
     (GEV.new 0 1 2).cdf ((GEV.new 0 1 2).quantile (1 / 2)) = 1 / 2) :=
  ⟨by norm_num, by norm_num, by norm_num,
    cdf_quantile_roundtrip (Gumbel.new 0 1) (Frechet.new 0 1 1)
      (Weibull.new 0 1 1) (GEV.new 0 1 2) (by norm_num [Gumbel.new])
      (by norm_num [Frechet.new]) (by norm_num [Frechet.new])
      (by norm_num [Weibull.new]) (by norm_num [Weibull.new])
      (by norm_num [GEV.new]) (by norm_num) (by norm_num)⟩

/-- C10: `get_seed` returns `some s` exactly on `Seed s` and `none` exactly on
`Empty`; the default selector is `Empty`, so its `get_seed` is `none`. -/
theorem randomSeed_get_seed_spec :
    (∀ (r : RandomSeed) (s : Nat), r.get_seed = some s ↔ r = RandomSeed.Seed s) ∧
    (∀ r : RandomSeed, r.get_seed = none ↔ r = RandomSeed.Empty) ∧
    RandomSeed.default = RandomSeed.Empty ∧
    RandomSeed.default.get_seed = none := by
  refine ⟨?_, ?_, rfl, rfl⟩
  · intro r s
    cases r <;> simp [RandomSeed.get_seed]
  · intro r
    cases r <;> simp [RandomSeed.get_seed]

/-- C8: with an explicit seed, `random` is a deterministic function of the
seed and the distribution parameters: its value does not depend on the
ambient entropy draw, for each of the four distributions. -/
theorem random_seeded_deterministic (uniformOfSeed : Nat → ℝ) (e1 e2 : ℝ)
    (s : Nat) (g : Gumbel) (f : Frechet) (w : Weibull) (v : GEV) :
    g.randomG uniformOfSeed e1 (RandomSeed.Seed s)
      = g.randomG uniformOfSeed e2 (RandomSeed.Seed s) ∧
    f.randomG uniformOfSeed e1 (RandomSeed.Seed s)
      = f.randomG uniformOfSeed e2 (RandomSeed.Seed s) ∧
    w.randomG uniformOfSeed e1 (RandomSeed.Seed s)
      = w.randomG uniformOfSeed e2 (RandomSeed.Seed s) ∧
    v.randomG uniformOfSeed e1 (RandomSeed.Seed s)
      = v.randomG uniformOfSeed e2 (RandomSeed.Seed s) :=
  ⟨rfl, rfl, rfl, rfl⟩

/-- C9: validation is debug-only: with the debug flag off (release build)
every constructor stores the given fields unchecked, even out of domain, and
every checked operation computes its formula on any input without error;
with the debug flag on, a violated domain check halts (five concrete halts
shown). -/
theorem validation_debug_only :
    (∀ loc scale : ℝ, Gumbel.newChecked false loc scale
        = some (Gumbel.new loc scale)
      ∧ (Gumbel.new loc scale).loc = loc ∧ (Gumbel.new loc scale).scale = scale) ∧
    (∀ loc scale shape : ℝ, Frechet.newChecked false loc scale shape
        = some (Frechet.new loc scale shape)
      ∧ (Frechet.new loc scale shape).loc = loc
      ∧ (Frechet.new loc scale shape).scale = scale
      ∧ (Frechet.new loc scale shape).shape = shape) ∧
    (∀ loc scale shape : ℝ, Weibull.newChecked false loc scale shape
        = some (Weibull.new loc scale shape)
      ∧ (Weibull.new loc scale shape).loc = loc
      ∧ (Weibull.new loc scale shape).scale = scale
      ∧ (Weibull.new loc scale shape).shape = shape) ∧
    (∀ loc scale shape : ℝ, GEV.newChecked false loc scale shape
        = some (GEV.new loc scale shape)
      ∧ (GEV.new loc scale shape).loc = loc
      ∧ (GEV.new loc scale shape).scale = scale
      ∧ (GEV.new loc scale shape).shape = shape) ∧
    (∀ (d : Gumbel) (x : ℝ),
      Gumbel.quantileChecked false d x = some (d.quantile x)) ∧
    (∀ (d : Frechet) (x : ℝ),
      Frechet.cdfChecked false d x = some (d.cdf x)
      ∧ Frechet.pdfChecked false d x = some (d.pdf x)
      ∧ Frechet.quantileChecked false d x = some (d.quantile x)) ∧
    (∀ (d : Weibull) (x : ℝ),
      Weibull.cdfChecked false d x = some (d.cdf x)
      ∧ Weibull.pdfChecked false d x = some (d.pdf x)
      ∧ Weibull.quantileChecked false d x = some (d.quantile x)) ∧
    (∀ (d : GEV) (x : ℝ),
      GEV.cdfChecked false d x = some (d.cdf x)
      ∧ GEV.pdfChecked false d x = some (d.pdf x)
      ∧ GEV.quantileChecked false d x = some (d.quantile x)) ∧
    Gumbel.newChecked true 0 (-1) = none ∧
    Frechet.newChecked true 0 1 (-1) = none ∧
    Weibull.newChecked true 0 (-1) 1 = none ∧
    GEV.newChecked true 0 (-1) 0 = none ∧
    Gumbel.quantileChecked true (Gumbel.new 0 1) 2 = none := by
  refine ⟨fun loc scale => ⟨rfl, rfl, rfl⟩,
    fun loc scale shape => ⟨rfl, rfl, rfl, rfl⟩,
    fun loc scale shape => ⟨rfl, rfl, rfl, rfl⟩,
    fun loc scale shape => ⟨rfl, rfl, rfl, rfl⟩,
    fun d x => rfl,
    fun d x => ⟨rfl, rfl, rfl⟩,
    fun d x => ⟨rfl, rfl, rfl⟩,
    fun d x => ⟨rfl, rfl, rfl⟩,
    ?_, ?_, ?_, ?_, ?_⟩
  · norm_num [Gumbel.newChecked, domainCheck]
  · norm_num [Frechet.newChecked, domainCheck]
  · norm_num [Weibull.newChecked, domainCheck]
  · norm_num [GEV.newChecked, domainCheck]
  · norm_num [Gumbel.quantileChecked, domainCheck]

/-- C2: for every GEV with positive scale and every p in [0,1], the source
quantile agrees with the formula as the spec states it, with the branch
chosen by exact equality of the shape with zero. -/
theorem gev_quantile_formula (d : GEV) (p : ℝ) (hscale : 0 < d.scale)
    (hp0 : 0 ≤ p) (hp1 : p ≤ 1) :
    d.quantile p = gevQuantileSpec d.loc d.scale d.shape p := by
  by_cases h : d.shape = 0
  · simp only [GEV.quantile, gevQuantileSpec, if_pos h]
    ring
  · simp only [GEV.quantile, gevQuantileSpec, if_neg h]
    ring

/-- Witness for C2 at a concrete instance and probability. -/
theorem gev_quantile_formula_witness :
    0 < (GEV.new 0 1 2).scale ∧ (0 : ℝ) ≤ 1 / 2 ∧ (1 : ℝ) / 2 ≤ 1 ∧
    (GEV.new 0 1 2).quantile (1 / 2)
      = gevQuantileSpec (GEV.new 0 1 2).loc (GEV.new 0 1 2).scale
          (GEV.new 0 1 2).shape (1 / 2) :=
  ⟨by norm_num [GEV.new], by norm_num, by norm_num,
    gev_quantile_formula (GEV.new 0 1 2) (1 / 2) (by norm_num [GEV.new])
      (by norm_num) (by norm_num)⟩

end
